import Mathlib

/-!
Verification of the AQL (flexiql) query language: a shallow embedding of
`src/main.rs` (parser, condition evaluator, execution engine) together with
theorems settling the specification claims.

Modelling conventions:
* Rust `String`/`&str` values are Lean `String`s; all string operations used
  by the program (`split(">>")`, `split(',')`, `split_whitespace`, `trim`,
  `to_lowercase`, `strip_prefix`, byte-lexicographic comparison, substring
  containment) are re-implemented here by structural recursion over the
  character list so that every definition evaluates inside the kernel.
  Byte-lexicographic order on UTF-8 strings coincides with codepoint
  lexicographic order, which is what `cmpChars` implements; `to_lowercase`
  is modelled on ASCII letters (the program only compares against ASCII
  keywords).
* Rust `f64` parsing (`str::parse::<f64>()`) is modelled by `parseF64`,
  which follows the grammar accepted by Rust's float parser (optional sign,
  `inf`/`infinity`/`nan` case-insensitively, or decimal digits with at most
  one dot and an optional exponent).  The numeric value of a successfully
  parsed decimal is represented as an exact rational (`F64.fin`); rounding
  to binary64, overflow to infinity and underflow to zero are not modelled —
  none of the claims depends on them.  `NaN` and signed infinities are
  modelled exactly, since comparison behaviour at those values is what the
  claims about sorting and panics turn on.
* `Vec::sort_by` is a stable sort; it is modelled by the stable insertion
  sort `iSort`.  The comparator in `apply_sort` calls
  `partial_cmp(..).unwrap()`, which panics when a comparison of two parsed
  floats is undefined (NaN involved); `applySort` models this panic as the
  `.cmpPanic` outcome and raises it exactly when some pair of rows of a
  multi-row list has an undefined comparison (for a two-element list this is
  precisely when Rust's sort panics; Rust's stable sort always compares the
  two elements of a two-element slice).
* `unwrap()` on the `Option` returned by `strip_prefix` is modelled by the
  `.unwrapPanic` parse outcome.
-/

namespace AQL

/-! ### Characters and basic string operations -/

/-- Generic three-way comparison from a linear order, by two `<` tests. -/
def cmpLin {α : Type} [LinearOrder α] (x y : α) : Ordering :=
  if x < y then .lt else if y < x then .gt else .eq

/-- Lexicographic comparison of character lists by codepoint, the order Rust
uses on `&str` (byte order on UTF-8 agrees with codepoint order). -/
def cmpChars : List Char → List Char → Ordering
  | [], [] => .eq
  | [], _ :: _ => .lt
  | _ :: _, [] => .gt
  | a :: as, b :: bs =>
    match cmpLin a.toNat b.toNat with
    | .eq => cmpChars as bs
    | o => o

/-- Comparison of Lean strings via their character lists. -/
def cmpStr (a b : String) : Ordering := cmpChars a.data b.data

/-- ASCII lowercasing of one character, as used for keyword matching. -/
def lowerChar (c : Char) : Char :=
  if 'A' ≤ c ∧ c ≤ 'Z' then Char.ofNat (c.toNat + 32) else c

/-- ASCII lowercasing of a character list (models `str::to_lowercase`). -/
def lowerChars (l : List Char) : List Char := l.map lowerChar

/-- ASCII lowercasing of a string. -/
def lowerStr (s : String) : String := ⟨lowerChars s.data⟩

/-- Whitespace test matching the characters Rust's `trim` and
`split_whitespace` strip in the program's ASCII queries. -/
def isWs (c : Char) : Bool := c = ' ' ∨ c = '\t' ∨ c = '\n' ∨ c = '\r'

/-- Strip leading and trailing whitespace (models `str::trim`). -/
def trimChars (l : List Char) : List Char :=
  ((l.dropWhile isWs).reverse.dropWhile isWs).reverse

/-- Trim a string. -/
def trimStr (s : String) : String := ⟨trimChars s.data⟩

/-- Split on runs of whitespace, discarding empty pieces
(models `str::split_whitespace`).  `acc` holds the current word reversed. -/
def wordsAux : List Char → List Char → List (List Char)
  | [], acc => if acc = [] then [] else [acc.reverse]
  | c :: rest, acc =>
    if isWs c then
      if acc = [] then wordsAux rest [] else acc.reverse :: wordsAux rest []
    else wordsAux rest (c :: acc)

/-- The whitespace-separated words of a string. -/
def wordsOf (s : String) : List String := (wordsAux s.data []).map String.mk

/-- Split a character list on a single-character separator
(models `str::split(',')`: `""` gives `[""]`, `","` gives `["",""]`). -/
def splitChar (sep : Char) : List Char → List (List Char)
  | [] => [[]]
  | c :: rest =>
    if c = sep then [] :: splitChar sep rest
    else
      match splitChar sep rest with
      | [] => [[c]]
      | x :: xs => (c :: x) :: xs

/-- Split a character list on the two-character separator `ab`, left to
right, non-overlapping (models `str::split(">>")`). -/
def split2 (a b : Char) : List Char → List (List Char)
  | [] => [[]]
  | [c] => [[c]]
  | c :: d :: rest =>
    if c = a ∧ d = b then [] :: split2 a b rest
    else
      match split2 a b (d :: rest) with
      | [] => [[c]]
      | x :: xs => (c :: x) :: xs

/-- Join word lists with single spaces (models `[&str]::join(" ")`). -/
def joinSpace : List (List Char) → List Char
  | [] => []
  | [x] => x
  | x :: xs => x ++ ' ' :: joinSpace xs

/-- Join a list of strings with single spaces. -/
def joinSpaceStr (l : List String) : String := ⟨joinSpace (l.map String.data)⟩

/-- Does `n` occur as a contiguous sublist of `h`?
(models `str::contains` on character lists). -/
def containsSub (h n : List Char) : Bool :=
  if n.isPrefixOf h then true
  else
    match h with
    | [] => false
    | _ :: t => containsSub t n

/-! ### Numeric parsing -/

/-- Numeric value of a digit list (most significant first). -/
def natOfDigits (l : List Char) : Nat :=
  l.foldl (fun a c => a * 10 + (c.toNat - 48)) 0

/-- Parse a Rust `usize`: optional `+`, one or more ASCII digits, value below
`2^64` (overflow is a parse error, as in Rust). -/
def parseUsize (s : String) : Option Nat :=
  match s.data with
  | [] => none
  | c :: rest =>
    let ds := if c = '+' then rest else c :: rest
    if ds ≠ [] ∧ ds.all Char.isDigit then
      let n := natOfDigits ds
      if n < 2 ^ 64 then some n else none
    else none

/-- The value of a parsed `f64`: NaN, a signed infinity, or a finite value
represented as an exact rational (binary64 rounding is not modelled). -/
inductive F64 : Type
  | nan : F64
  | inf (negative : Bool) : F64
  | fin (q : ℚ) : F64
deriving DecidableEq

/-- Strip an optional leading sign; `true` means negative. -/
def stripSign : List Char → Bool × List Char
  | '+' :: r => (false, r)
  | '-' :: r => (true, r)
  | l => (false, l)

/-- Split at the first occurrence of `e`/`E` (exponent marker). -/
def splitExp : List Char → List Char × Option (List Char)
  | [] => ([], none)
  | c :: r =>
    if c = 'e' ∨ c = 'E' then ([], some r)
    else
      let p := splitExp r
      (c :: p.1, p.2)

/-- Split at the first occurrence of `.` (decimal point). -/
def splitDot : List Char → List Char × Option (List Char)
  | [] => ([], none)
  | c :: r =>
    if c = '.' then ([], some r)
    else
      let p := splitDot r
      (c :: p.1, p.2)

/-- Value of `ip . fp × 10^e` as an exact rational, built with `mkRat` so
that the kernel can evaluate concrete instances. -/
def decVal (ip fp : List Char) (e : ℤ) : ℚ :=
  let m := natOfDigits (ip ++ fp)
  let k : ℤ := e - (fp.length : ℤ)
  if 0 ≤ k then mkRat ((m * 10 ^ k.toNat : ℕ) : ℤ) 1
  else mkRat (m : ℤ) (10 ^ (-k).toNat)

/-- Negate when `neg` holds. -/
def applySign (neg : Bool) (q : ℚ) : ℚ := if neg then -q else q

/-- Model of `str::parse::<f64>()`: optional sign, then case-insensitive
`inf`/`infinity`/`nan`, or digits with at most one dot and an optional
exponent (`e`/`E`, optional sign, digits); at least one digit is required in
the mantissa.  Finite values are exact rationals. -/
def parseF64 (s : String) : Option F64 :=
  let p := stripSign s.data
  let neg := p.1
  let l := p.2
  let low := lowerChars l
  if low = "inf".data ∨ low = "infinity".data then some (.inf neg)
  else if low = "nan".data then some .nan
  else
    let me := splitExp l
    let mant := me.1
    let ife := splitDot mant
    let ip := ife.1
    let fp := ife.2.getD []
    if ip.all Char.isDigit ∧ fp.all Char.isDigit ∧ (ip ≠ [] ∨ fp ≠ []) then
      match me.2 with
      | none => some (.fin (applySign neg (decVal ip fp 0)))
      | some ex =>
        let pe := stripSign ex
        if pe.2 ≠ [] ∧ pe.2.all Char.isDigit then
          some (.fin (applySign neg (decVal ip fp
            (if pe.1 then -(natOfDigits pe.2 : ℤ) else (natOfDigits pe.2 : ℤ)))))
        else none
    else none

/-- Model of `partial_cmp` on two parsed floats: undefined (`none`) exactly when a NaN
is involved, otherwise the numeric ordering. -/
def fcmp : F64 → F64 → Option Ordering
  | .nan, _ => none
  | _, .nan => none
  | .inf a, .inf b => some (if a = b then .eq else if a then .lt else .gt)
  | .inf a, .fin _ => some (if a then .lt else .gt)
  | .fin _, .inf b => some (if b then .gt else .lt)
  | .fin x, .fin y => some (cmpLin x y)

/-- Rust `a > b` on two floats: `false` when the comparison is undefined. -/
def fgt (a b : F64) : Bool := fcmp a b = some .gt

/-- Rust `a < b` on two floats: `false` when the comparison is undefined. -/
def flt (a b : F64) : Bool := fcmp a b = some .lt

/-! ### Data model (`Query`, `Filter`, errors) -/

/-- Decidable equality of `Except` values, used to evaluate parser and
engine outcomes on concrete inputs. -/
instance {ε α : Type} [DecidableEq ε] [DecidableEq α] :
    DecidableEq (Except ε α) := fun a b =>
  match a, b with
  | .error e, .error e' =>
    if h : e = e' then .isTrue (by rw [h]) else .isFalse (by simp [h])
  | .error _, .ok _ => .isFalse (by simp)
  | .ok _, .error _ => .isFalse (by simp)
  | .ok v, .ok v' =>
    if h : v = v' then .isTrue (by rw [h]) else .isFalse (by simp [h])

/-- A table row: one string cell per column. -/
abbrev Row := List String

/-- The `struct Filter` of the program: the operator is kept as the raw string
the parser produced, exactly as in the Rust code. -/
structure Filter : Type where
  column : String
  operator : String
  value : String
deriving DecidableEq

/-- The `struct Query` of the program. -/
structure Query : Type where
  tableName : String
  filter : Option Filter
  columns : Option (List String)
  sortColumn : Option String
  sortDesc : Bool
  limit : Option Nat
deriving DecidableEq

/-- Outcomes of parsing that abort the program: the two `Err` strings of
`parse_filter`, the (unreachable) empty-query error, and the panic of
`strip_prefix("show").unwrap()` on a stage whose first word lowercases to
`show` without the stage starting with the literal `show`. -/
inductive PError : Type
  | emptyQuery : PError
  | invalidFilter (stage : String) : PError
  | missingValue (stage : String) : PError
  | unwrapPanic : PError
deriving DecidableEq

/-- Execution failures: the `Column '..' not found` error (carrying the
column name) and the panic of `partial_cmp(..).unwrap()` in the sort
comparator. -/
inductive ExecErr : Type
  | columnNotFound (column : String) : ExecErr
  | cmpPanic : ExecErr
deriving DecidableEq

/-! ### Parser (`parse_filter`, `parse_query`) -/

/-- Model of `parse_filter`: words of the stage; fewer than 3 words is `InvalidFilter`;
operator resolution in the priority order of the code; `MissingFilterValue`
when no words remain at the value start; the literal re-joins the remaining
words with single spaces. -/
def parseFilter (s : String) : Except PError Filter :=
  let ws := wordsOf s
  if ws.length < 3 then .error (.invalidFilter s)
  else
    let w1 := ws.getD 1 ""
    let w2 := ws.getD 2 ""
    let ovs : String × Nat :=
      if 4 ≤ ws.length ∧ w1 = "greater" ∧ w2 = "than" then ("greater", 3)
      else if 4 ≤ ws.length ∧ w1 = "less" ∧ w2 = "than" then ("less", 3)
      else if w1 = "equals" then ("equals", 2)
      else if w1 = "contains" then ("contains", 2)
      else (w1, 2)
    if ws.length ≤ ovs.2 then .error (.missingValue s)
    else .ok ⟨ws.getD 0 "", ovs.1, joinSpaceStr (ws.drop ovs.2)⟩

/-- The fresh query built from the table reference (`{}.csv` formatting). -/
def defaultQuery (t : String) : Query :=
  ⟨t ++ ".csv", none, none, none, false, none⟩

/-- Model of `strip_prefix("show")` followed by `trim`: `none` models the `unwrap`
panic when the stage does not start with the literal `show`. -/
def dropShow (part : String) : Option String :=
  if "show".data.isPrefixOf part.data then some (trimStr ⟨part.data.drop 4⟩)
  else none

/-- Processing of one pipeline stage after the table reference, mirroring the
`match words[0].to_lowercase()` dispatch of `parse_query`. -/
def processStage (q : Query) (part : String) : Except PError Query :=
  match wordsOf part with
  | [] => .ok q
  | w :: ws =>
    if lowerStr w = "show" then
      match dropShow part with
      | none => .error .unwrapPanic
      | some cs =>
        .ok { q with
          columns := some ((splitChar ',' cs.data).map fun l => String.mk (trimChars l)) }
    else if lowerStr w = "sort" then
      if 1 ≤ ws.length then
        .ok { q with
          sortColumn := some (ws.headD "")
          sortDesc :=
            if 2 ≤ ws.length ∧ lowerStr (ws.getD 1 "") = "desc" then true
            else q.sortDesc }
      else .ok q
    else if lowerStr w = "take" ∨ lowerStr w = "limit" then
      if 1 ≤ ws.length then .ok { q with limit := parseUsize (ws.headD "") }
      else .ok q
    else (parseFilter part).map fun f => { q with filter := some f }

/-- Fold the stages after the table reference over the accumulating query. -/
def processStages (q : Query) : List String → Except PError Query
  | [] => .ok q
  | p :: ps => do processStages (← processStage q p) ps

/-- Model of `parse_query`: split on `>>`, trim each part, first part is the table
reference, remaining parts are stages. -/
def parseQuery (input : String) : Except PError Query :=
  let parts := (split2 '>' '>' input.data).map fun l => String.mk (trimChars l)
  match parts with
  | [] => .error .emptyQuery
  | t :: rest => processStages (defaultQuery t) rest

/-! ### Condition evaluator (`check_condition`) -/

/-- Model of `check_condition`: dispatch on the raw operator string, in the order of
the Rust `match` arms. -/
def checkCondition (cell op lit : String) : Bool :=
  if op = "equals" ∨ op = "=" ∨ op = "==" then lowerStr cell = lowerStr lit
  else if op = "greater" ∨ op = ">" then
    match parseF64 cell, parseF64 lit with
    | some a, some b => fgt a b
    | _, _ => cmpStr cell lit = .gt
  else if op = "less" ∨ op = "<" then
    match parseF64 cell, parseF64 lit with
    | some a, some b => flt a b
    | _, _ => cmpStr cell lit = .lt
  else if op = "contains" then containsSub (lowerChars cell.data) (lowerChars lit.data)
  else false

/-! ### Execution engine -/

/-- The name→index mapping built by inserting `(header, i)` for each header
in order into a hash map: a later duplicate header overwrites an earlier one,
so the result is the index of the last occurrence. -/
def headerIndex : List String → String → Option Nat
  | [], _ => none
  | n :: t, c =>
    match headerIndex t c with
    | some i => some (i + 1)
    | none => if n = c then some 0 else none

/-- The row predicate of `apply_filter`: the cell at the filter column's
index (a row too short to have that cell never matches). -/
def rowPred (f : Filter) (idx : Nat) (row : Row) : Bool :=
  match row[idx]? with
  | some cell => checkCondition cell f.operator f.value
  | none => false

/-- Model of `apply_filter`: `ColumnNotFound` when the filter column is absent,
otherwise keep exactly the rows whose cell matches, in order. -/
def applyFilter (rows : List Row) (f : Filter) (names : List String) :
    Except ExecErr (List Row) :=
  match headerIndex names f.column with
  | none => .error (.columnNotFound f.column)
  | some idx => .ok (rows.filter (rowPred f idx))

/-- The sort comparator of `apply_sort` on two rows: cells at the sort index
(missing cells default to `""`); numeric comparison when both cells parse as
floats — undefined (`none`, the `unwrap` panic) when a NaN is involved —
otherwise lexicographic comparison of the raw cells. -/
def rowCmp (idx : Nat) (a b : Row) : Option Ordering :=
  let va := (a[idx]?).getD ""
  let vb := (b[idx]?).getD ""
  match parseF64 va, parseF64 vb with
  | some x, some y => fcmp x y
  | _, _ => some (cmpStr va vb)

/-- Total version of the comparator (meaningful once definedness is known). -/
def rowCmpT (idx : Nat) (a b : Row) : Ordering := (rowCmp idx a b).getD .eq

/-- The boolean `≤` the stable sort uses: comparator result (swapped when
descending, as the code reverses the comparison, not the rows) is not `gt`. -/
def sortLe (desc : Bool) (idx : Nat) (a b : Row) : Bool :=
  (if desc then (rowCmpT idx a b).swap else rowCmpT idx a b) ≠ .gt

/-- Stable insertion of `x` into `s`: `x` goes in front of the first element
it is `≤`-before. -/
def oInsert {α : Type} (le : α → α → Bool) (x : α) : List α → List α
  | [] => [x]
  | y :: t => if le x y then x :: y :: t else y :: oInsert le x t

/-- Stable insertion sort, the model of `Vec::sort_by`. -/
def iSort {α : Type} (le : α → α → Bool) : List α → List α
  | [] => []
  | x :: t => oInsert le x (iSort le t)

/-- Model of `apply_sort`: `ColumnNotFound` when the sort column is absent; the
comparator's `unwrap` panics (`.cmpPanic`) when some pair of rows of a
multi-row list has an undefined comparison; otherwise the stable sort. -/
def applySort (rows : List Row) (col : String) (desc : Bool)
    (names : List String) : Except ExecErr (List Row) :=
  match headerIndex names col with
  | none => .error (.columnNotFound col)
  | some idx =>
    if rows.length ≤ 1 then .ok rows
    else if rows.all fun a => rows.all fun b => (rowCmp idx a b).isSome then
      .ok (iSort (sortLe desc idx) rows)
    else .error .cmpPanic

/-- Resolve each projected column to its index, failing with
`ColumnNotFound` at the first absent column, as the loop in
`select_columns` does. -/
def resolveIdx (names : List String) : List String → Except ExecErr (List Nat)
  | [] => .ok []
  | c :: cs =>
    match headerIndex names c with
    | none => .error (.columnNotFound c)
    | some i => (resolveIdx names cs).map (i :: ·)

/-- Model of `select_columns`: the projection list itself becomes the header row, then
each row keeps the named cells in order (missing cells default to `""`). -/
def selectColumns (rows : List Row) (cols : List String)
    (names : List String) : Except ExecErr (List Row) :=
  (resolveIdx names cols).map fun idxs =>
    cols :: rows.map fun r => idxs.map fun i => ((r[i]?).getD "")

/-- Model of `execute_query` after the table has been loaded (the CSV loader is the
external collaborator; `names`/`rows` are its output): filter, then sort,
then truncate to the limit, then project (or prepend the original header). -/
def executeQuery (names : List String) (rows : List Row) (q : Query) :
    Except ExecErr (List Row) := do
  let r1 ← match q.filter with
    | none => .ok rows
    | some f => applyFilter rows f names
  let r2 ← match q.sortColumn with
    | none => .ok r1
    | some c => applySort r1 c q.sortDesc names
  let r3 := match q.limit with
    | none => r2
    | some n => r2.take n
  match q.columns with
  | none => .ok (names :: r3)
  | some cols => selectColumns r3 cols names

/-! ### Helper lemmas: comparators are swap-antisymmetric -/

theorem cmpLin_swap {α : Type} [LinearOrder α] (x y : α) :
    cmpLin x y = (cmpLin y x).swap := by
  unfold cmpLin
  rcases lt_trichotomy x y with h | h | h
  · rw [if_pos h, if_neg (lt_asymm h), if_pos h]
    rfl
  · subst h
    rw [if_neg (lt_irrefl x), if_neg (lt_irrefl x)]
    rfl
  · rw [if_neg (lt_asymm h), if_pos h, if_pos h]
    rfl

theorem cmpChars_swap (a b : List Char) : cmpChars a b = (cmpChars b a).swap := by
  induction a generalizing b with
  | nil => cases b <;> rfl
  | cons c as ih =>
    cases b with
    | nil => rfl
    | cons d bs =>
      show (match cmpLin c.toNat d.toNat with
        | .eq => cmpChars as bs
        | o => o) = (match cmpLin d.toNat c.toNat with
        | .eq => cmpChars bs as
        | o => o).swap
      rw [cmpLin_swap c.toNat d.toNat]
      rcases cmpLin d.toNat c.toNat with _ | _ | _ <;> simp [Ordering.swap, ih]

theorem cmpStr_swap (a b : String) : cmpStr a b = (cmpStr b a).swap :=
  cmpChars_swap a.data b.data

theorem fcmp_swap (x y : F64) : fcmp x y = (fcmp y x).map Ordering.swap := by
  cases x with
  | nan => cases y <;> rfl
  | inf a =>
    cases y with
    | nan => rfl
    | inf b => cases a <;> cases b <;> rfl
    | fin q => cases a <;> rfl
  | fin p =>
    cases y with
    | nan => rfl
    | inf b => cases b <;> rfl
    | fin q => simp [fcmp, cmpLin_swap p q]

theorem rowCmp_swap (idx : Nat) (a b : Row) :
    rowCmp idx a b = (rowCmp idx b a).map Ordering.swap := by
  unfold rowCmp
  rcases hx : parseF64 ((a[idx]?).getD "") with _ | x <;>
    rcases hy : parseF64 ((b[idx]?).getD "") with _ | y
  · simp [hx, hy, cmpStr_swap ((a[idx]?).getD "") ((b[idx]?).getD "")]
  · simp [hx, hy, cmpStr_swap ((a[idx]?).getD "") ((b[idx]?).getD "")]
  · simp [hx, hy, cmpStr_swap ((a[idx]?).getD "") ((b[idx]?).getD "")]
  · simp [hx, hy, fcmp_swap x y]

theorem rowCmpT_swap (idx : Nat) (a b : Row) :
    rowCmpT idx a b = (rowCmpT idx b a).swap := by
  unfold rowCmpT
  rw [rowCmp_swap idx a b]
  rcases rowCmp idx b a with _ | o <;> rfl

/-! ### Claim C1 -/

/-- Claim C1 counterexample: the claim says every `RawToken` operator other
than `=`, `==`, `>`, `<` — explicitly including the bare word `greater`
produced from the 3-word stage `age greater 5` — evaluates to `false`.  In
the code, `parse_filter` stores the same string `"greater"` both for the
resolved `greater than` form and for this raw-token form, and
`check_condition` matches the arm `"greater" | ">"`, so the condition
evaluates numerically and is `true` here, refuting the claim. -/
theorem C1_counterexample :
    parseFilter "age greater 5" = .ok ⟨"age", "greater", "5"⟩ ∧
    checkCondition "30" "greater" "5" = true := by
  constructor
  · decide
  · decide

/-- Claim C1, amended: evaluating a condition whose operator string is none
of the eight strings the evaluator recognizes (`equals`, `=`, `==`,
`greater`, `>`, `less`, `<`, `contains`) returns `false` for every cell
value and literal.  The bare words `greater` and `less`, though produced as
raw tokens by 3-word filter stages, are among the recognized strings and do
match. -/
theorem C1_spec (cell op lit : String)
    (h : op ∉ (["equals", "=", "==", "greater", ">", "less", "<", "contains"] :
      List String)) :
    checkCondition cell op lit = false := by
  simp only [List.mem_cons, List.not_mem_nil, or_false, not_or] at h
  obtain ⟨h1, h2, h3, h4, h5, h6, h7, h8⟩ := h
  simp [checkCondition, h1, h2, h3, h4, h5, h6, h7, h8]

/-- Claim C1 witness: the unrecognized operator `foo` never matches. -/
theorem C1_witness :
    ("foo" : String) ∉ (["equals", "=", "==", "greater", ">", "less", "<",
      "contains"] : List String) ∧
    checkCondition "abc" "foo" "xyz" = false :=
  ⟨by decide, C1_spec "abc" "foo" "xyz" (by decide)⟩

/-! ### Claim C5 -/

/-- Claim C5: with a filter present, execution fails with `ColumnNotFound`
naming the filter's column exactly when that column is absent from the
header mapping; otherwise it keeps exactly the rows whose cell at the filter
column's index satisfies the condition evaluator against the filter literal,
and the kept rows form a sublist of the input (relative order preserved). -/
theorem C5_spec (rows : List Row) (f : Filter) (names : List String) :
    (headerIndex names f.column = none →
      applyFilter rows f names = .error (.columnNotFound f.column)) ∧
    (∀ idx, headerIndex names f.column = some idx →
      applyFilter rows f names = .ok (rows.filter (rowPred f idx)) ∧
      List.Sublist (rows.filter (rowPred f idx)) rows) := by
  constructor
  · intro h
    unfold applyFilter
    rw [h]
  · intro idx h
    unfold applyFilter
    rw [h]
    exact ⟨rfl, List.filter_sublist rows⟩

/-- Claim C5 witness: on the two-row table of the specification, filtering
`age greater 26` keeps exactly Ann's row, and filtering on the absent column
`height` fails with `ColumnNotFound "height"`. -/
theorem C5_witness :
    applyFilter [["Ann", "30"], ["Bob", "25"]] ⟨"age", "greater", "26"⟩
      ["name", "age"] = .ok [["Ann", "30"]] ∧
    applyFilter [["Ann", "30"], ["Bob", "25"]] ⟨"height", "greater", "26"⟩
      ["name", "age"] = .error (.columnNotFound "height") := by
  constructor
  · have h := (C5_spec [["Ann", "30"], ["Bob", "25"]] ⟨"age", "greater", "26"⟩
      ["name", "age"]).2 1 (by decide)
    rw [h.1]
    decide
  · exact (C5_spec [["Ann", "30"], ["Bob", "25"]] ⟨"height", "greater", "26"⟩
      ["name", "age"]).1 (by decide)

/-! ### Claim C7 -/

/-- Claim C7: a `take` or `limit` stage (any capitalization of the keyword)
with at least two words sets the query's limit to the result of parsing the
second word as a non-negative integer — `none` when the parse fails, with no
error either way; no other query field changes. -/
theorem C7_spec (q : Query) (part : String) (w0 w1 : String)
    (rest : List String) (hw : wordsOf part = w0 :: w1 :: rest)
    (hkw : lowerStr w0 = "take" ∨ lowerStr w0 = "limit") :
    processStage q part = .ok { q with limit := parseUsize w1 } := by
  unfold processStage
  rw [hw]
  have hshow : ¬ lowerStr w0 = "show" := by
    rcases hkw with h | h <;> rw [h] <;> decide
  have hsort : ¬ lowerStr w0 = "sort" := by
    rcases hkw with h | h <;> rw [h] <;> decide
  simp [hshow, hsort, hkw]

/-- Claim C7 witness: `take abc` has an unparsable count, so the limit ends
up `none` and the stage succeeds; parsing the whole query `t >> take abc`
likewise succeeds with no limit set. -/
theorem C7_witness :
    parseUsize "abc" = none ∧
    processStage (defaultQuery "t") "take abc" =
      .ok { defaultQuery "t" with limit := none } ∧
    parseQuery "t >> take abc" = .ok ⟨"t.csv", none, none, none, false, none⟩ := by
  refine ⟨by decide, ?_, by decide⟩
  have h := C7_spec (defaultQuery "t") "take abc" "take" "abc" []
    (by decide) (Or.inl (by decide))
  rw [h]
  decide

/-! ### Claim C2 -/

/-- Claim C2 counterexample: the claim says a `show` stage parses for any
capitalization of the keyword and never fails or aborts.  In the code the
dispatch lowercases the first word but `part.strip_prefix("show")` is
case-sensitive, so on the stage `SHOW name` the `unwrap()` panics and
parsing aborts. -/
theorem C2_counterexample :
    parseQuery "t >> SHOW name" = .error .unwrapPanic := by decide

/-- Claim C2, amended: a stage whose first word is exactly the lowercase
keyword `show` (equivalently, whose lowercased first word is `show` and
which starts with the literal `show`) sets the query's projection to the
remainder of the stage after the keyword, split on commas with each piece
trimmed, and parsing succeeds; but when the first word lowercases to `show`
while the stage does not start with the literal `show` (any other
capitalization), `strip_prefix("show").unwrap()` panics. -/
theorem C2_spec (q : Query) (part : String) :
    ((wordsOf part).head? = some "show" →
      "show".data.isPrefixOf part.data = true →
      processStage q part = .ok { q with
        columns := some ((splitChar ',' (trimStr ⟨part.data.drop 4⟩).data).map
          fun l => String.mk (trimChars l)) }) ∧
    (∀ w, (wordsOf part).head? = some w → lowerStr w = "show" →
      "show".data.isPrefixOf part.data = false →
      processStage q part = .error .unwrapPanic) := by
  constructor
  · intro h1 h2
    rcases hw : wordsOf part with _ | ⟨w, ws⟩
    · rw [hw] at h1
      exact absurd h1 (by simp)
    · rw [hw] at h1
      have hwshow : w = "show" := by
        simpa using h1
      subst hwshow
      unfold processStage
      rw [hw]
      dsimp only
      have hlow : lowerStr "show" = "show" := by decide
      rw [if_pos hlow]
      unfold dropShow
      rw [if_pos h2]
  · intro w h1 h2 h3
    rcases hw : wordsOf part with _ | ⟨w', ws⟩
    · rw [hw] at h1
      exact absurd h1 (by simp)
    · rw [hw] at h1
      have hww : w' = w := by
        simpa using h1
      subst hww
      unfold processStage
      rw [hw]
      dsimp only
      rw [if_pos h2]
      unfold dropShow
      rw [if_neg (by simp [h3])]

/-- Claim C2 witness: the lowercase stage `show name, age` sets the
projection `["name", "age"]`, while the stage `SHOW name` panics. -/
theorem C2_witness :
    processStage (defaultQuery "t") "show name, age" =
      .ok { defaultQuery "t" with columns := some ["name", "age"] } ∧
    processStage (defaultQuery "t") "SHOW name" = .error .unwrapPanic := by
  constructor
  · have h := (C2_spec (defaultQuery "t") "show name, age").1
      (by decide) (by decide)
    rw [h]
    decide
  · exact (C2_spec (defaultQuery "t") "SHOW name").2 "SHOW"
      (by decide) (by decide) (by decide)

/-! ### Claim C3 -/

/-- The value start index of a filter stage, as described by the claim:
index 3 for the four-word `greater than` / `less than` forms, otherwise
index 2. -/
def valueStart (ws : List String) : Nat :=
  if 4 ≤ ws.length ∧ ws.getD 1 "" = "greater" ∧ ws.getD 2 "" = "than" then 3
  else if 4 ≤ ws.length ∧ ws.getD 1 "" = "less" ∧ ws.getD 2 "" = "than" then 3
  else 2

/-- The operator string a filter stage resolves to, in the claim's priority
order; the raw-token fallback keeps word 1 verbatim. -/
def opOf (ws : List String) : String :=
  if 4 ≤ ws.length ∧ ws.getD 1 "" = "greater" ∧ ws.getD 2 "" = "than" then
    "greater"
  else if 4 ≤ ws.length ∧ ws.getD 1 "" = "less" ∧ ws.getD 2 "" = "than" then
    "less"
  else if ws.getD 1 "" = "equals" then "equals"
  else if ws.getD 1 "" = "contains" then "contains"
  else ws.getD 1 ""

/-- Restatement of `parseFilter` through `valueStart` and `opOf`. -/
theorem parseFilter_eq (s : String) :
    parseFilter s =
      (if (wordsOf s).length < 3 then .error (.invalidFilter s)
       else if (wordsOf s).length ≤ valueStart (wordsOf s) then
         .error (.missingValue s)
       else .ok ⟨(wordsOf s).getD 0 "", opOf (wordsOf s),
         joinSpaceStr ((wordsOf s).drop (valueStart (wordsOf s)))⟩) := by
  unfold parseFilter valueStart opOf
  dsimp only
  split_ifs <;> rfl

/-- In a stage with at least three words the value start index is a valid
word index, so `MissingFilterValue` is unreachable. -/
theorem valueStart_lt (ws : List String) (h : 3 ≤ ws.length) :
    valueStart ws < ws.length := by
  unfold valueStart
  split_ifs with h1 h2 <;> omega

/-- Claim C3: `parse_filter` fails with `InvalidFilter` exactly when the
stage has fewer than three words; it fails with `MissingFilterValue` exactly
when at least three words exist but none remains at or after the value start
index (which, given the length guards on the `greater than` / `less than`
forms, never happens); and with at least three words it succeeds with the
column taken verbatim from word 0, the operator resolved in the stated
priority order, and the literal being the remaining words rejoined with
single spaces. -/
theorem C3_spec (s : String) :
    (parseFilter s = .error (.invalidFilter s) ↔ (wordsOf s).length < 3) ∧
    (parseFilter s = .error (.missingValue s) ↔
      3 ≤ (wordsOf s).length ∧ (wordsOf s).length ≤ valueStart (wordsOf s)) ∧
    (3 ≤ (wordsOf s).length →
      valueStart (wordsOf s) < (wordsOf s).length ∧
      parseFilter s = .ok ⟨(wordsOf s).getD 0 "", opOf (wordsOf s),
        joinSpaceStr ((wordsOf s).drop (valueStart (wordsOf s)))⟩) := by
  rw [parseFilter_eq]
  by_cases hlen : (wordsOf s).length < 3
  · rw [if_pos hlen]
    refine ⟨by simp [hlen], by simp ; omega, by omega⟩
  · have h3 : 3 ≤ (wordsOf s).length := by omega
    have hvs := valueStart_lt (wordsOf s) h3
    rw [if_neg hlen, if_neg (by omega)]
    exact ⟨by simp [hlen], by simp ; omega, fun _ => ⟨hvs, rfl⟩⟩

/-- Claim C3 witness: concrete stages exercising the `greater than` form,
the raw-token form, and the too-short failure. -/
theorem C3_witness :
    (valueStart (wordsOf "age greater than 5") < (wordsOf "age greater than 5").length ∧
      parseFilter "age greater than 5" = .ok ⟨"age", "greater", "5"⟩) ∧
    parseFilter "x sameas multi word" = .ok ⟨"x", "sameas", "multi word"⟩ ∧
    parseFilter "a b" = .error (.invalidFilter "a b") := by
  refine ⟨?_, ?_, ?_⟩
  · have h := (C3_spec "age greater than 5").2.2 (by decide)
    refine ⟨h.1, ?_⟩
    rw [h.2]
    decide
  · have h := (C3_spec "x sameas multi word").2.2 (by decide)
    rw [h.2]
    decide
  · exact (C3_spec "a b").1.mpr (by decide)

/-! ### Claim C6 -/

/-- Specification-side comparison for `GreaterThan` (claim C6): parse both
strings as floats; when both parses succeed, numeric greater-than, otherwise
case-sensitive lexicographic greater-than on the raw strings. -/
def specFloatGt (cell lit : String) : Bool :=
  match parseF64 cell, parseF64 lit with
  | some a, some b => fgt a b
  | _, _ => cmpStr cell lit = .gt

/-- Specification-side comparison for `LessThan` (claim C6), symmetric to
`specFloatGt`. -/
def specFloatLt (cell lit : String) : Bool :=
  match parseF64 cell, parseF64 lit with
  | some a, some b => flt a b
  | _, _ => cmpStr cell lit = .lt

theorem flt_eq_fgt_swap (x y : F64) : flt x y = fgt y x := by
  unfold flt fgt
  rw [fcmp_swap x y]
  rcases fcmp y x with _ | o
  · rfl
  · cases o <;> rfl

theorem cmpStr_lt_iff_gt (a b : String) : (cmpStr a b = .lt) = (cmpStr b a = .gt) := by
  rw [cmpStr_swap a b]
  rcases cmpStr b a with _ | _ | _ <;> simp [Ordering.swap]

/-- Claim C6: the evaluator's `greater` arm (also triggered by the raw token
`>`) is exactly the parse-both-else-lexicographic comparison of the
specification, the `less` arm (also `<`) is its mirror image, and the two
are symmetric: `cell less lit` agrees with `lit greater cell` for all
strings. -/
theorem C6_spec (cell lit : String) :
    checkCondition cell "greater" lit = specFloatGt cell lit ∧
    checkCondition cell ">" lit = specFloatGt cell lit ∧
    checkCondition cell "less" lit = specFloatLt cell lit ∧
    checkCondition cell "<" lit = specFloatLt cell lit ∧
    checkCondition cell "less" lit = checkCondition lit "greater" cell := by
  refine ⟨rfl, rfl, rfl, rfl, ?_⟩
  show specFloatLt cell lit = specFloatGt lit cell
  unfold specFloatLt specFloatGt
  rcases hx : parseF64 cell with _ | x <;> rcases hy : parseF64 lit with _ | y <;>
    simp [hx, hy, cmpStr_lt_iff_gt cell lit]
  exact flt_eq_fgt_swap x y

/-! ### Claim C8 -/

theorem resolveIdx_ok (names cols : List String)
    (h : ∀ c ∈ cols, (headerIndex names c).isSome) :
    resolveIdx names cols = .ok (cols.map fun c => (headerIndex names c).getD 0) := by
  induction cols with
  | nil => rfl
  | cons c cs ih =>
    have hc := h c (List.mem_cons_self c cs)
    rcases hi : headerIndex names c with _ | i
    · rw [hi] at hc
      simp at hc
    · have ih' := ih fun c' hc' => h c' (List.mem_cons_of_mem c hc')
      simp [resolveIdx, hi, ih', Except.map]

theorem resolveIdx_err (names cols : List String)
    (h : ∃ c ∈ cols, headerIndex names c = none) :
    ∃ c ∈ cols, headerIndex names c = none ∧
      resolveIdx names cols = .error (.columnNotFound c) := by
  induction cols with
  | nil => simp at h
  | cons c cs ih =>
    rcases hi : headerIndex names c with _ | i
    · exact ⟨c, List.mem_cons_self c cs, hi, by simp [resolveIdx, hi]⟩
    · rcases h with ⟨c', hc', hn⟩
      rcases List.mem_cons.mp hc' with rfl | hmem
      · rw [hi] at hn
        exact absurd hn (by simp)
      · rcases ih ⟨c', hmem, hn⟩ with ⟨c'', hm'', hn'', herr⟩
        exact ⟨c'', List.mem_cons_of_mem c hm'', hn'',
          by simp [resolveIdx, hi, herr, Except.map]⟩

/-- Compositional form of `executeQuery`: the same pipeline written with
explicit `Except.bind`, convenient for case analysis. -/
theorem executeQuery_eq (names : List String) (rows : List Row) (q : Query) :
    executeQuery names rows q =
      Except.bind
        (match q.filter with
          | none => .ok rows
          | some f => applyFilter rows f names) fun r1 =>
      Except.bind
        (match q.sortColumn with
          | none => .ok r1
          | some c => applySort r1 c q.sortDesc names) fun r2 =>
      (match q.columns with
        | none => .ok (names ::
            (match q.limit with | none => r2 | some n => r2.take n))
        | some cols =>
          selectColumns (match q.limit with | none => r2 | some n => r2.take n)
            cols names) := by
  unfold executeQuery
  rcases hf : q.filter with _ | f <;> rcases hs : q.sortColumn with _ | c <;>
    dsimp only <;> rfl

/-- Claim C8: with a projection present, `select_columns` fails with
`ColumnNotFound` naming an absent column whenever one of the named columns
is absent from the header mapping, and otherwise produces the projection
list itself as the header row followed by, for each surviving row, exactly
the named cells in the given order with missing cell positions defaulting to
the empty string; and every successful execution's result starts with the
header row — the projection list when one is present, the original header
names otherwise. -/
theorem C8_spec (names : List String) :
    (∀ (rows : List Row) (cols : List String),
      (∀ c ∈ cols, (headerIndex names c).isSome) →
      selectColumns rows cols names = .ok (cols :: rows.map fun r =>
        cols.map fun c => ((r[(headerIndex names c).getD 0]?).getD ""))) ∧
    (∀ (rows : List Row) (cols : List String),
      (∃ c ∈ cols, headerIndex names c = none) →
      ∃ c ∈ cols, headerIndex names c = none ∧
        selectColumns rows cols names = .error (.columnNotFound c)) ∧
    (∀ (rows : List Row) (q : Query) (res : List Row),
      executeQuery names rows q = .ok res →
      res.head? = some (q.columns.getD names)) := by
  refine ⟨?_, ?_, ?_⟩
  · intro rows cols h
    unfold selectColumns
    rw [resolveIdx_ok names cols h]
    simp [Except.map, List.map_map]
  · intro rows cols h
    rcases resolveIdx_err names cols h with ⟨c, hm, hn, herr⟩
    exact ⟨c, hm, hn, by simp [selectColumns, herr, Except.map]⟩
  · intro rows q res h
    rw [executeQuery_eq] at h
    rcases hx : (match q.filter with
      | none => (.ok rows : Except ExecErr (List Row))
      | some f => applyFilter rows f names) with e | r1 <;> rw [hx] at h
    · simp [Except.bind] at h
    · simp only [Except.bind] at h
      rcases hy : (match q.sortColumn with
        | none => (.ok r1 : Except ExecErr (List Row))
        | some c => applySort r1 c q.sortDesc names) with e | r2 <;> rw [hy] at h
      · simp [Except.bind] at h
      · simp only [Except.bind] at h
        rcases hc : q.columns with _ | cols <;> rw [hc] at h <;> dsimp only at h
        · have hres := Except.ok.inj h
          rw [← hres]
          simp [hc]
        · unfold selectColumns at h
          rcases hr : resolveIdx names cols with e | idxs <;> rw [hr] at h
          · simp [Except.map] at h
          · simp only [Except.map] at h
            have hres := Except.ok.inj h
            rw [← hres]
            simp [hc]

/-- Claim C8 witness: projecting `name` from the two-row table produces the
projection header row then the named cells; projecting the absent column
`height` fails naming it; and a full successful execution starts with the
header row. -/
theorem C8_witness :
    selectColumns [["Ann", "30"], ["Bob", "25"]] ["name"] ["name", "age"] =
      .ok [["name"], ["Ann"], ["Bob"]] ∧
    (∃ c ∈ (["height"] : List String), headerIndex ["name", "age"] c = none ∧
      selectColumns [["Ann", "30"]] ["height"] ["name", "age"] =
        .error (.columnNotFound c)) ∧
    (executeQuery ["name", "age"] [["Ann", "30"]]
        ⟨"t.csv", none, none, none, false, none⟩ = .ok [["name", "age"], ["Ann", "30"]] →
      ([["name", "age"], ["Ann", "30"]] : List Row).head? =
        some ((none : Option (List String)).getD ["name", "age"])) := by
  refine ⟨?_, ?_, ?_⟩
  · have h := (C8_spec ["name", "age"]).1 [["Ann", "30"], ["Bob", "25"]]
      ["name"] (by decide)
    rw [h]
    decide
  · exact (C8_spec ["name", "age"]).2.1 [["Ann", "30"]] ["height"]
      ⟨"height", by decide, by decide⟩
  · intro h
    exact (C8_spec ["name", "age"]).2.2 [["Ann", "30"]]
      ⟨"t.csv", none, none, none, false, none⟩ [["name", "age"], ["Ann", "30"]] h

/-! ### Claim C9 -/

/-- Truncation of a result table to `n` data rows, keeping the header. -/
def limitRes (n : Nat) : List Row → List Row
  | [] => []
  | h :: t => h :: t.take n

/-- Claim C9: execution with limit `n` equals execution without a limit
followed by truncating the data rows to the first `n`; consequently the
limited result's data rows are the `take n` prefix of the unlimited data
rows, of length `min n m` for an unlimited result of size `m` (so limit `0`
gives zero data rows and a limit at or above `m` changes nothing). -/
theorem C9_spec (names : List String) (rows : List Row) (q : Query)
    (n : Nat) (h : q.limit = some n) :
    executeQuery names rows q =
      Except.map (limitRes n) (executeQuery names rows { q with limit := none }) ∧
    (∀ res res', executeQuery names rows q = .ok res →
      executeQuery names rows { q with limit := none } = .ok res' →
      res.drop 1 = (res'.drop 1).take n ∧
      (res.drop 1).length = min n (res'.drop 1).length ∧
      (res.drop 1) <+: (res'.drop 1)) := by
  have hmain : executeQuery names rows q =
      Except.map (limitRes n) (executeQuery names rows { q with limit := none }) := by
    rw [executeQuery_eq, executeQuery_eq]
    dsimp only
    rcases hx : (match q.filter with
      | none => (.ok rows : Except ExecErr (List Row))
      | some f => applyFilter rows f names) with e | r1 <;> rw [hx]
    · simp [Except.bind, Except.map]
    · simp only [Except.bind]
      rcases hy : (match q.sortColumn with
        | none => (.ok r1 : Except ExecErr (List Row))
        | some c => applySort r1 c q.sortDesc names) with e | r2 <;> rw [hy]
      · simp [Except.bind, Except.map]
      · simp only [Except.bind]
        rw [h]
        rcases hc : q.columns with _ | cols <;> dsimp only
        · simp [Except.map, limitRes]
        · unfold selectColumns
          rcases hr : resolveIdx names cols with e | idxs
          · simp [Except.map]
          · simp [Except.map, limitRes, List.map_take]
  refine ⟨hmain, ?_⟩
  intro res res' h1 h2
  rw [hmain, h2] at h1
  simp only [Except.map] at h1
  have hres : res = limitRes n res' := (Except.ok.inj h1).symm
  subst hres
  rcases res' with _ | ⟨hd, t⟩
  · simp [limitRes]
  · simp only [limitRes, List.drop_one, List.tail_cons]
    exact ⟨trivial, List.length_take n t, List.take_prefix n t⟩

/-- Claim C9 witness: on the two-row table, limit 1 keeps the header and the
first data row, and equals the unlimited run truncated to one data row. -/
theorem C9_witness :
    executeQuery ["name", "age"] [["Ann", "30"], ["Bob", "25"]]
        ⟨"t.csv", none, none, none, false, some 1⟩ =
      Except.map (limitRes 1) (executeQuery ["name", "age"]
        [["Ann", "30"], ["Bob", "25"]] ⟨"t.csv", none, none, none, false, none⟩) ∧
    executeQuery ["name", "age"] [["Ann", "30"], ["Bob", "25"]]
        ⟨"t.csv", none, none, none, false, some 1⟩ =
      .ok [["name", "age"], ["Ann", "30"]] := by
  constructor
  · exact (C9_spec ["name", "age"] [["Ann", "30"], ["Bob", "25"]]
      ⟨"t.csv", none, none, none, false, some 1⟩ 1 rfl).1
  · decide

/-! ### Insertion sort lemmas

The lemmas below are stated for an arbitrary boolean `le`; totality and
transitivity hypotheses are localized to the members of the list being
sorted, because the row comparator of `apply_sort` is lawful only on
well-behaved columns. -/

theorem mem_oInsert {α : Type} (le : α → α → Bool) (x : α) (s : List α)
    (z : α) : z ∈ oInsert le x s ↔ z = x ∨ z ∈ s := by
  induction s with
  | nil => simp [oInsert]
  | cons y t ih =>
    unfold oInsert
    cases hxy : le x y
    · rw [if_neg (by simp)]
      simp [ih]
      tauto
    · rw [if_pos rfl]
      simp

theorem oInsert_perm {α : Type} (le : α → α → Bool) (x : α) (s : List α) :
    (oInsert le x s).Perm (x :: s) := by
  induction s with
  | nil => exact List.Perm.refl _
  | cons y t ih =>
    unfold oInsert
    cases hxy : le x y
    · rw [if_neg (by simp)]
      exact (ih.cons y).trans (List.Perm.swap x y t)
    · rw [if_pos rfl]

theorem iSort_perm {α : Type} (le : α → α → Bool) (l : List α) :
    (iSort le l).Perm l := by
  induction l with
  | nil => exact List.Perm.refl _
  | cons x t ih => exact (oInsert_perm le x (iSort le t)).trans (ih.cons x)

theorem mem_iSort {α : Type} (le : α → α → Bool) (l : List α) (z : α) :
    z ∈ iSort le l ↔ z ∈ l :=
  (iSort_perm le l).mem_iff

theorem pairwise_oInsert {α : Type} (le : α → α → Bool) (L : List α)
    (htot : ∀ a ∈ L, ∀ b ∈ L, le a b = true ∨ le b a = true)
    (htrans : ∀ a ∈ L, ∀ b ∈ L, ∀ c ∈ L,
      le a b = true → le b c = true → le a c = true)
    (x : α) (hx : x ∈ L) (s : List α) (hs : ∀ y ∈ s, y ∈ L)
    (hp : s.Pairwise fun a b => le a b = true) :
    (oInsert le x s).Pairwise fun a b => le a b = true := by
  induction s with
  | nil => simp [oInsert]
  | cons y t ih =>
    rcases List.pairwise_cons.mp hp with ⟨hyt, hpt⟩
    have hyL : y ∈ L := hs y (List.mem_cons_self y t)
    have htL : ∀ z ∈ t, z ∈ L := fun z hz => hs z (List.mem_cons_of_mem y hz)
    unfold oInsert
    cases hxy : le x y
    · rw [if_neg (by simp)]
      refine List.pairwise_cons.mpr ⟨?_, ih htL hpt⟩
      intro z hz
      rcases (mem_oInsert le x t z).mp hz with rfl | hzt
      · rcases htot z hx y hyL with h | h
        · rw [hxy] at h
          exact absurd h (by simp)
        · exact h
      · exact hyt z hzt
    · rw [if_pos rfl]
      refine List.pairwise_cons.mpr ⟨?_, hp⟩
      intro z hz
      rcases List.mem_cons.mp hz with rfl | hzt
      · exact hxy
      · exact htrans x hx y hyL z (htL z hzt) hxy (hyt z hzt)

theorem pairwise_iSort {α : Type} (le : α → α → Bool) (l : List α)
    (htot : ∀ a ∈ l, ∀ b ∈ l, le a b = true ∨ le b a = true)
    (htrans : ∀ a ∈ l, ∀ b ∈ l, ∀ c ∈ l,
      le a b = true → le b c = true → le a c = true) :
    (iSort le l).Pairwise fun a b => le a b = true := by
  have aux : ∀ s : List α, (∀ y ∈ s, y ∈ l) →
      (iSort le s).Pairwise fun a b => le a b = true := by
    intro s
    induction s with
    | nil => intro _; simp [iSort]
    | cons x t ih =>
      intro hsub
      exact pairwise_oInsert le l htot htrans x (hsub x (List.mem_cons_self x t))
        (iSort le t)
        (fun y hy => hsub y (List.mem_cons_of_mem x ((mem_iSort le t y).mp hy)))
        (ih fun y hy => hsub y (List.mem_cons_of_mem x hy))
  exact aux l fun y hy => hy

theorem sublist_oInsert {α : Type} (le : α → α → Bool) (x : α) (s : List α) :
    s.Sublist (oInsert le x s) := by
  induction s with
  | nil => simp [oInsert]
  | cons y t ih =>
    unfold oInsert
    cases hxy : le x y
    · rw [if_neg (by simp)]
      exact List.Sublist.cons₂ y ih
    · rw [if_pos rfl]
      exact List.Sublist.cons x (List.Sublist.refl _)

theorem pair_oInsert {α : Type} (le : α → α → Bool) (x b : α) (s : List α)
    (hb : b ∈ s) (hxb : le x b = true) :
    [x, b].Sublist (oInsert le x s) := by
  induction s with
  | nil => simp at hb
  | cons y t ih =>
    unfold oInsert
    cases hxy : le x y
    · rw [if_neg (by simp)]
      rcases List.mem_cons.mp hb with rfl | hbt
      · rw [hxb] at hxy
        exact absurd hxy (by simp)
      · exact List.Sublist.cons y (ih hbt)
    · rw [if_pos rfl]
      exact List.Sublist.cons₂ x (List.singleton_sublist.mpr hb)

/-- Stability of the insertion sort on pairs: a pair in input order whose
left element is `≤` the right one stays in that order in the output. -/
theorem pair_sublist_iSort {α : Type} (le : α → α → Bool) (l : List α)
    (a b : α) (hab : [a, b].Sublist l) (hle : le a b = true) :
    [a, b].Sublist (iSort le l) := by
  induction l with
  | nil => simp at hab
  | cons x t ih =>
    cases hab with
    | cons _ h => exact (ih h).trans (sublist_oInsert le x (iSort le t))
    | cons₂ _ h =>
      exact pair_oInsert le a b (iSort le t)
        ((mem_iSort le t b).mpr (List.singleton_sublist.mp h)) hle

/-! ### Properties of the row comparator used for sorting -/

theorem sortLe_desc_flip (idx : Nat) (a b : Row) :
    sortLe true idx a b = sortLe false idx b a := by
  simp only [sortLe, rowCmpT_swap idx a b]
  cases rowCmpT idx b a <;> rfl

theorem sortLe_total (desc : Bool) (idx : Nat) (a b : Row) :
    sortLe desc idx a b = true ∨ sortLe desc idx b a = true := by
  have h := rowCmpT_swap idx a b
  unfold sortLe
  rw [h]
  cases desc <;> cases rowCmpT idx b a <;> simp [Ordering.swap]

theorem sortLe_of_eq (desc : Bool) (idx : Nat) (a b : Row)
    (h : rowCmpT idx a b = .eq) : sortLe desc idx a b = true := by
  unfold sortLe
  rw [h]
  cases desc <;> rfl

theorem rowCmpT_ne_eq_symm (idx : Nat) : Symmetric fun a b : Row =>
    rowCmpT idx a b ≠ .eq := by
  intro a b h
  rw [rowCmpT_swap idx b a]
  cases ho : rowCmpT idx a b
  · decide
  · exact absurd ho h
  · decide

/-! ### Claim C4 -/

/-- Claim C4 counterexample: the claim asserts that for every sortable
column, ascending and descending runs are exact reverses whenever no two
rows compare equal.  The comparator of `apply_sort` compares numerically
when both cells parse as floats and lexicographically otherwise, which is
cyclic on the mixed column `2`, `10`, `1a` (`2 < 10` numerically,
`10 < 1a` and `1a < 2` as strings); there the two runs are not reverses of
each other although no comparison yields `eq`. -/
theorem C4_counterexample :
    headerIndex ["v"] "v" = some 0 ∧
    List.Pairwise (fun a b => rowCmpT 0 a b ≠ .eq)
      ([["2"], ["10"], ["1a"]] : List Row) ∧
    applySort [["2"], ["10"], ["1a"]] "v" false ["v"] =
      .ok [["2"], ["10"], ["1a"]] ∧
    applySort [["2"], ["10"], ["1a"]] "v" true ["v"] =
      .ok [["2"], ["1a"], ["10"]] ∧
    ([["2"], ["1a"], ["10"]] : List Row) ≠
      ([["2"], ["10"], ["1a"]] : List Row).reverse := by
  refine ⟨by decide, by decide, by decide, by decide, by decide⟩

/-- Claim C4, amended: for a sort column present in the header mapping,
whenever the comparator is defined on every pair of rows and transitive over
the rows being sorted (as it is when the column is homogeneous, e.g. all
numeric or all non-numeric), sorting in either direction is the stable
insertion sort under the respective comparator; tie pairs keep their
original relative order in both the ascending and the descending output
(descending reverses the per-pair comparison, not the row sequence); and
when additionally no two rows compare equal, the descending output is the
exact reverse of the ascending output.  For mixed columns the comparator can
be cyclic and the reversal property fails (see the counterexample). -/
theorem C4_spec (rows : List Row) (col : String) (names : List String)
    (idx : Nat) (hidx : headerIndex names col = some idx)
    (hdef : ∀ a ∈ rows, ∀ b ∈ rows, (rowCmp idx a b).isSome)
    (htrans : ∀ a ∈ rows, ∀ b ∈ rows, ∀ c ∈ rows,
      sortLe false idx a b = true → sortLe false idx b c = true →
      sortLe false idx a c = true) :
    applySort rows col false names = .ok (iSort (sortLe false idx) rows) ∧
    applySort rows col true names = .ok (iSort (sortLe true idx) rows) ∧
    (∀ a b, [a, b].Sublist rows → rowCmpT idx a b = .eq →
      [a, b].Sublist (iSort (sortLe false idx) rows) ∧
      [a, b].Sublist (iSort (sortLe true idx) rows)) ∧
    (rows.Pairwise (fun a b => rowCmpT idx a b ≠ .eq) →
      iSort (sortLe true idx) rows = (iSort (sortLe false idx) rows).reverse) := by
  have happ : ∀ desc : Bool,
      applySort rows col desc names = .ok (iSort (sortLe desc idx) rows) := by
    intro desc
    unfold applySort
    rw [hidx]
    dsimp only
    by_cases hlen : rows.length ≤ 1
    · rw [if_pos hlen]
      rcases rows with _ | ⟨x, _ | ⟨y, t⟩⟩
      · rfl
      · rfl
      · simp at hlen
    · rw [if_neg hlen]
      have hall : (rows.all fun a => rows.all fun b =>
          (rowCmp idx a b).isSome) = true := by
        simp only [List.all_eq_true]
        exact fun a ha b hb => hdef a ha b hb
      rw [if_pos hall]
  have htransd : ∀ a ∈ rows, ∀ b ∈ rows, ∀ c ∈ rows,
      sortLe true idx a b = true → sortLe true idx b c = true →
      sortLe true idx a c = true := by
    intro a ha b hb c hc h1 h2
    rw [sortLe_desc_flip] at h1 h2 ⊢
    exact htrans c hc b hb a ha h2 h1
  refine ⟨happ false, happ true, ?_, ?_⟩
  · intro a b hab heq
    exact ⟨pair_sublist_iSort _ rows a b hab (sortLe_of_eq false idx a b heq),
      pair_sublist_iSort _ rows a b hab (sortLe_of_eq true idx a b heq)⟩
  · intro hnt
    have hR : ∀ a b : Row, rowCmpT idx a b = .lt → rowCmpT idx b a = .lt → a = b := by
      intro a b h1 h2
      rw [rowCmpT_swap idx a b, h2] at h1
      exact absurd h1 (by decide)
    haveI : IsAntisymm Row fun a b : Row => rowCmpT idx a b = .lt := ⟨hR⟩
    have hperm : ((iSort (sortLe true idx) rows).reverse).Perm
        (iSort (sortLe false idx) rows) :=
      ((List.reverse_perm _).trans (iSort_perm _ rows)).trans
        (iSort_perm _ rows).symm
    have hnt_asc : (iSort (sortLe false idx) rows).Pairwise
        fun a b => rowCmpT idx a b ≠ .eq :=
      ((iSort_perm _ rows).pairwise_iff (fun h => rowCmpT_ne_eq_symm idx h)).mpr hnt
    have hnt_dsc : (iSort (sortLe true idx) rows).Pairwise
        fun a b => rowCmpT idx a b ≠ .eq :=
      ((iSort_perm _ rows).pairwise_iff (fun h => rowCmpT_ne_eq_symm idx h)).mpr hnt
    have hle_asc : (iSort (sortLe false idx) rows).Pairwise
        fun a b => sortLe false idx a b = true :=
      pairwise_iSort _ rows (fun a _ b _ => sortLe_total false idx a b) htrans
    have hle_dsc : (iSort (sortLe true idx) rows).Pairwise
        fun a b => sortLe true idx a b = true :=
      pairwise_iSort _ rows (fun a _ b _ => sortLe_total true idx a b) htransd
    have hs_asc : (iSort (sortLe false idx) rows).Pairwise
        fun a b : Row => rowCmpT idx a b = .lt := by
      refine (hle_asc.and hnt_asc).imp ?_
      intro a b hab
      rcases hab with ⟨h1, h2⟩
      revert h1 h2
      unfold sortLe
      cases rowCmpT idx a b <;> simp
    have hs_dsc : ((iSort (sortLe true idx) rows).reverse).Pairwise
        fun a b : Row => rowCmpT idx a b = .lt := by
      rw [List.pairwise_reverse]
      refine (hle_dsc.and hnt_dsc).imp ?_
      intro a b hab
      rcases hab with ⟨h1, h2⟩
      rw [rowCmpT_swap idx b a]
      revert h1 h2
      unfold sortLe
      cases rowCmpT idx a b <;> simp [Ordering.swap]
    have heq := List.eq_of_perm_of_sorted hperm hs_dsc hs_asc
    rw [← heq, List.reverse_reverse]

/-- Claim C4 witness: the column with cells `1x`, `01`, `1` has the tie
`01 = 1` (both parse to the number one) and is transitive; the tie keeps its
original order in both sort directions. -/
theorem C4_witness :
    applySort [["1x"], ["01"], ["1"]] "v" false ["v"] =
      .ok [["01"], ["1"], ["1x"]] ∧
    applySort [["1x"], ["01"], ["1"]] "v" true ["v"] =
      .ok [["1x"], ["01"], ["1"]] ∧
    ([["01"], ["1"]] : List Row).Sublist [["01"], ["1"], ["1x"]] ∧
    ([["01"], ["1"]] : List Row).Sublist [["1x"], ["01"], ["1"]] := by
  have h := C4_spec [["1x"], ["01"], ["1"]] "v" ["v"] 0
    (by decide) (by decide) (by decide)
  have hs := h.2.2.1 ["01"] ["1"] (by decide) (by decide)
  have easc : iSort (sortLe false 0) [["1x"], ["01"], ["1"]] =
      [["01"], ["1"], ["1x"]] := by decide
  have edsc : iSort (sortLe true 0) [["1x"], ["01"], ["1"]] =
      [["1x"], ["01"], ["1"]] := by decide
  refine ⟨?_, ?_, ?_, ?_⟩
  · rw [h.1, easc]
  · rw [h.2.1, edsc]
  · exact easc ▸ hs.1
  · exact edsc ▸ hs.2

/-! ### Claim C10 -/

theorem fcmp_isSome (x y : F64) (hx : x ≠ .nan) (hy : y ≠ .nan) :
    (fcmp x y).isSome = true := by
  cases x <;> cases y <;> simp [fcmp] at hx hy ⊢

/-- Claim C10 counterexample: the claim says `apply_sort` is total and
panic-free even for columns containing `NaN`.  In the code `"NaN"` parses as
an `f64` NaN, `partial_cmp` on it returns `None`, and the comparator's
`unwrap()` panics; on the two-row column `NaN`, `1` the sort aborts. -/
theorem C10_counterexample :
    parseF64 "NaN" = some F64.nan ∧
    rowCmp 0 [("NaN" : String)] [("1" : String)] = none ∧
    applySort [["NaN"], ["1"]] "v" false ["v"] = .error .cmpPanic := by
  refine ⟨by decide, by decide, by decide⟩

/-- Claim C10, amended: `apply_sort` returns successfully for every row
sequence and sort column present in the header mapping, provided no cell of
the sort column parses as NaN; then every pairwise `partial_cmp` of parsed
floats is defined and the `unwrap` cannot panic.  (Non-finite but ordered
values such as `inf` are harmless; only NaN comparisons are undefined.) -/
theorem C10_spec (rows : List Row) (col : String) (names : List String)
    (idx : Nat) (desc : Bool) (hidx : headerIndex names col = some idx)
    (hnan : ∀ r ∈ rows, parseF64 ((r[idx]?).getD "") ≠ some F64.nan) :
    ∃ l, applySort rows col desc names = .ok l := by
  unfold applySort
  rw [hidx]
  dsimp only
  by_cases hlen : rows.length ≤ 1
  · rw [if_pos hlen]
    exact ⟨rows, rfl⟩
  · rw [if_neg hlen]
    have hall : (rows.all fun a => rows.all fun b =>
        (rowCmp idx a b).isSome) = true := by
      simp only [List.all_eq_true]
      intro a ha b hb
      unfold rowCmp
      rcases hpa : parseF64 ((a[idx]?).getD "") with _ | x
      · rcases hpb : parseF64 ((b[idx]?).getD "") with _ | y <;> simp [hpa, hpb]
      · rcases hpb : parseF64 ((b[idx]?).getD "") with _ | y
        · simp [hpa, hpb]
        · simp only [hpa, hpb]
          refine fcmp_isSome x y ?_ ?_
          · intro hx
            exact hnan a ha (hx ▸ hpa)
          · intro hy
            exact hnan b hb (hy ▸ hpb)
    rw [if_pos hall]
    exact ⟨_, rfl⟩

/-- Claim C10 witness: a mixed column with numeric and non-numeric cells but
no NaN sorts without panicking. -/
theorem C10_witness :
    ∃ l, applySort [["2"], ["abc"], ["1"]] "v" false ["v"] = .ok l :=
  C10_spec [["2"], ["abc"], ["1"]] "v" ["v"] 0 false (by decide) (by decide)

end AQL
